import Mathlib

/-
Verification of the batch card-generation pipeline of the french-audio
repository (src/scripts/generate-cards.py and src/process_words.py).

The Python code is shallowly embedded: JSON values become the inductive
type JVal, Python dicts become insertion-ordered association lists, the
remote generation service becomes an oracle giving the outcome of each
attempt, and code that can raise becomes Except-valued. File reading and
CSV parsing are external collaborators; functions that consume a file
take the already-parsed rows or the already-parsed JSON value as input.
-/

/-- A JSON value as produced by json.loads: strings, numbers, booleans,
null, arrays and objects. Objects are modelled as insertion-ordered
association lists with distinct keys, matching Python dict semantics.
Numbers are modelled as integers; the claims under study never depend on
fractional numeric values. -/
inductive JVal : Type where
  | str (s : String)
  | num (n : Int)
  | bool (b : Bool)
  | null
  | arr (xs : List JVal)
  | obj (fields : List (String × JVal))

/-- Python truthiness of a JSON value: empty strings, zero, False, None,
empty lists and empty dicts are falsy, everything else is truthy. -/
def truthy : JVal → Bool
  | .str s => !s.isEmpty
  | .num n => n != 0
  | .bool b => b
  | .null => false
  | .arr xs => !xs.isEmpty
  | .obj fields => !fields.isEmpty

/-- Python dict.get(key, dflt) on a JSON object's field list. -/
def jget (fields : List (String × JVal)) (key : String) (dflt : JVal) : JVal :=
  match fields.lookup key with
  | some v => v
  | none => dflt

/-- Boolean test that pat occurs as a contiguous run inside s. -/
def isSubstringOf (pat : List Char) : List Char → Bool
  | [] => pat.isEmpty
  | c :: rest => pat.isPrefixOf (c :: rest) || isSubstringOf pat rest

/-- Python membership test needle in v, for a string needle. On a string
it is the substring test, on a list it is element equality against the
string, on a dict it is key membership; on numbers, booleans and None it
raises TypeError, modelled as Except.error. -/
def pyContains (needle : String) : JVal → Except Unit Bool
  | .str s => .ok (isSubstringOf needle.toList s.toList)
  | .arr xs => .ok (xs.any (fun v => match v with | .str t => t == needle | _ => false))
  | .obj fields => .ok (fields.any (fun p => p.1 == needle))
  | _ => .error ()

/-- Python iteration over a JSON value, as done by a for loop: lists
yield their elements, strings yield their characters as 1-character
strings, dicts yield their keys; numbers, booleans and None raise
TypeError, modelled as Except.error. -/
def pyIter : JVal → Except Unit (List JVal)
  | .arr xs => .ok xs
  | .str s => .ok (s.toList.map (fun c => .str (String.mk [c])))
  | .obj fields => .ok (fields.map (fun p => .str p.1))
  | _ => .error ()

/-- One iteration of the loop body of validate_card
(src/scripts/generate-cards.py lines 119-135): skip non-dict candidates,
read sentence, hint and acceptedAnswers with defaults, drop the card if
any of the three is falsy, drop it if the blank marker is not in the
sentence (the membership test can raise TypeError for a truthy non-string
sentence), drop it if acceptedAnswers is not a non-empty list, otherwise
keep a freshly built dict with exactly those three fields. Returns
Except.ok none for a dropped card, Except.ok (some c) for a kept card. -/
def checkCard (card : JVal) : Except Unit (Option JVal) :=
  match card with
  | .obj fields =>
    let sentence := jget fields "sentence" (.str "")
    let hint := jget fields "hint" (.str "")
    let answers := jget fields "acceptedAnswers" (.arr [])
    if !truthy sentence || !truthy hint || !truthy answers then .ok none
    else
      match pyContains "___" sentence with
      | .error e => .error e
      | .ok c =>
        if !c then .ok none
        else
          match answers with
          | .arr xs =>
            if xs.isEmpty then .ok none
            else .ok (some (.obj [("sentence", sentence), ("hint", hint),
                                  ("acceptedAnswers", answers)]))
          | _ => .ok none
  | _ => .ok none

/-- The for loop of validate_card over the candidate cards, in order;
an exception from any card aborts the whole call. -/
def validateLoop : List JVal → Except Unit (List JVal)
  | [] => .ok []
  | card :: rest =>
    match checkCard card with
    | .error e => .error e
    | .ok r =>
      match validateLoop rest with
      | .error e => .error e
      | .ok v =>
        .ok (match r with
             | some x => x :: v
             | none => v)

/-- validate_card(lemma, cards) from src/scripts/generate-cards.py lines
116-136. The cards argument is the raw JSON value found under the lemma
in the response object; the for loop first iterates over it (raising
TypeError for non-iterable values). The lemma argument is unused by the
source function body and kept for signature fidelity. -/
def validate_card (_lem : String) (cards : JVal) : Except Unit (List JVal) :=
  match pyIter cards with
  | .error e => .error e
  | .ok cs => validateLoop cs

example : validate_card "chat"
    (JVal.arr [JVal.obj [("sentence", JVal.str "Le ___ dort."),
                         ("hint", JVal.str "animal"),
                         ("acceptedAnswers", JVal.arr [JVal.str "chat"])]])
    = Except.ok [JVal.obj [("sentence", JVal.str "Le ___ dort."),
                           ("hint", JVal.str "animal"),
                           ("acceptedAnswers", JVal.arr [JVal.str "chat"])]] := rfl

example : validate_card "chat"
    (JVal.arr [JVal.obj [("sentence", JVal.str "pas de blanc"),
                         ("hint", JVal.str "animal"),
                         ("acceptedAnswers", JVal.arr [JVal.str "chat"])]])
    = Except.ok [] := rfl

example : validate_card "chat"
    (JVal.arr [JVal.obj [("sentence", JVal.num 1),
                         ("hint", JVal.str "animal"),
                         ("acceptedAnswers", JVal.arr [JVal.str "chat"])]])
    = Except.error () := rfl

/-- The card store: a Python dict mapping lemma to its validated card
list, modelled as an insertion-ordered association list. -/
abbrev Store : Type := List (String × List JVal)

/-- Python key-membership test k in d on a dict. -/
def hasKey (d : Store) (k : String) : Bool :=
  d.any (fun p => p.1 == k)

/-- Python d[k] read on a dict (as an Option, since the embedding only
reads keys known to be present). -/
def dictGet (d : Store) (k : String) : Option (List JVal) :=
  d.lookup k

/-- Python d[k] = v on a dict: overwrite in place if the key exists
(keeping its position), otherwise append at the end. -/
def dictSet (d : Store) (k : String) (v : List JVal) : Store :=
  if hasKey d k then d.map (fun p => if p.1 = k then (k, v) else p)
  else d ++ [(k, v)]

/-- Python d.update(r): set every key of r into d, in r's order. -/
def dictUpdate (d : Store) (r : Store) : Store :=
  r.foldl (fun acc p => dictSet acc p.1 p.2) d

/-- The result-building loop of generate_batch
(src/scripts/generate-cards.py lines 155-164): for each requested lemma
in order, if it is a key of the parsed response object, validate its
cards and record the lemma when at least one card survives; lemmas
absent from the response are skipped (with a warning). Keys of the
response that are not requested lemmas are never consulted. A TypeError
raised by validation aborts the attempt. -/
def buildResult (data : List (String × JVal)) : List String → Store → Except Unit Store
  | [], acc => .ok acc
  | lem :: rest, acc =>
    if data.any (fun p => p.1 == lem) then
      match validate_card lem (jget data lem .null) with
      | .error e => .error e
      | .ok validated =>
        if validated.isEmpty then buildResult data rest acc
        else buildResult data rest (dictSet acc lem validated)
    else
      buildResult data rest acc

/-- MAX_RETRIES = 5 (src/scripts/generate-cards.py line 42). -/
def MAX_RETRIES : Nat := 5

/-- Exponential backoff delay for transient (non-rate-limit) failures:
2 ** attempt seconds (src/scripts/generate-cards.py lines 171 and 185). -/
def transientDelay (attempt : Nat) : Nat :=
  2 ^ attempt

/-- Wait computation of the rate-limit branch
(src/scripts/generate-cards.py lines 176-179): the default is
30 * attempt; when the error text carries a provider-suggested delay
(the regex match, float-parsed and truncated to an integer, abstracted
here as the already-extracted value), the wait becomes the maximum of
the suggestion plus 5 and the default. -/
def rateLimitWait (attempt : Nat) (suggested : Option Nat) : Nat :=
  let wait := 30 * attempt
  match suggested with
  | some s => Nat.max (s + 5) wait
  | none => wait

/-- Outcome of one attempt, as seen by the retry loop of generate_batch:
either the service call returned and its text yielded a JSON value
(success), or extract_json_from_response raised json.JSONDecodeError
(jsonError), or the call raised an error whose text contains 429 or
RESOURCE_EXHAUSTED (rateLimited, carrying the provider-suggested delay
extracted from the error text, if any), or it raised any other error
(apiError). -/
inductive AttemptOutcome : Type where
  | success (data : JVal)
  | jsonError
  | rateLimited (suggested : Option Nat)
  | apiError

/-- Whether an attempt with this outcome makes generate_batch return:
the parsed value must be a JSON object and the validation loop must not
raise. A success whose value is not an object raises ValueError, and a
TypeError from validation also propagates; both are caught by the
generic except branch and retried. -/
def attemptReturns (lems : List String) : AttemptOutcome → Bool
  | .success d =>
    match d with
    | .obj fields => (buildResult fields lems []).isOk
    | _ => false
  | _ => false

/-- Whether an attempt with this outcome takes the transient
(exponential-backoff) retry path: a JSON parse error, a non-rate-limit
service error, or a success whose processing raises. -/
def isTransientFailure (lems : List String) : AttemptOutcome → Bool
  | .jsonError => true
  | .apiError => true
  | .rateLimited _ => false
  | .success d => !(attemptReturns lems (.success d))

/-- Observable behaviour of one generate_batch call: the returned dict,
the backoff sleeps performed inside the retry loop in order, and the
number of service calls made. -/
structure GenResult : Type where
  result : Store
  sleeps : List Nat
  calls : Nat

/-- The retry loop of generate_batch (src/scripts/generate-cards.py
lines 143-187), driven by an oracle giving each attempt's outcome.
fuel counts the remaining iterations of range(1, MAX_RETRIES + 1);
attempt is the current attempt number. When the loop ends without a
return, the function returns the empty dict. On a successful attempt
the result is returned at once. JSON parse errors and generic API
errors sleep 2 ** attempt only when attempt < MAX_RETRIES; the
rate-limit branch sleeps its computed wait unconditionally. -/
def genLoop (lems : List String) (oracle : Nat → AttemptOutcome) : Nat → Nat → GenResult
  | _, 0 => { result := [], sleeps := [], calls := 0 }
  | attempt, fuel + 1 =>
    match oracle attempt with
    | .success d =>
      (match d with
       | .obj fields =>
         (match buildResult fields lems [] with
          | .ok r => { result := r, sleeps := [], calls := 1 }
          | .error _ =>
            let rest := genLoop lems oracle (attempt + 1) fuel
            { result := rest.result
              sleeps := (if attempt < MAX_RETRIES then [transientDelay attempt] else [])
                          ++ rest.sleeps
              calls := rest.calls + 1 })
       | _ =>
         let rest := genLoop lems oracle (attempt + 1) fuel
         { result := rest.result
           sleeps := (if attempt < MAX_RETRIES then [transientDelay attempt] else [])
                       ++ rest.sleeps
           calls := rest.calls + 1 })
    | .jsonError =>
      let rest := genLoop lems oracle (attempt + 1) fuel
      { result := rest.result
        sleeps := (if attempt < MAX_RETRIES then [transientDelay attempt] else [])
                    ++ rest.sleeps
        calls := rest.calls + 1 }
    | .rateLimited suggested =>
      let rest := genLoop lems oracle (attempt + 1) fuel
      { result := rest.result
        sleeps := rateLimitWait attempt suggested :: rest.sleeps
        calls := rest.calls + 1 }
    | .apiError =>
      let rest := genLoop lems oracle (attempt + 1) fuel
      { result := rest.result
        sleeps := (if attempt < MAX_RETRIES then [transientDelay attempt] else [])
                    ++ rest.sleeps
        calls := rest.calls + 1 }

/-- generate_batch (src/scripts/generate-cards.py lines 139-187): run
the retry loop starting at attempt 1 with MAX_RETRIES iterations. The
prompt building is observationally irrelevant to the returned value and
is treated separately (build_prompt below). -/
def generate_batch (lems : List String) (oracle : Nat → AttemptOutcome) : GenResult :=
  genLoop lems oracle 1 MAX_RETRIES

example :
    (generate_batch ["chat"] (fun _ => .apiError)).result = [] := rfl

example :
    (generate_batch ["chat"] (fun _ => .apiError)).sleeps = [2, 4, 8, 16] := rfl

example :
    (generate_batch ["chat"] (fun _ => .rateLimited (some 40))).sleeps
      = [45, 60, 90, 120, 150] := rfl

example :
    (generate_batch ["chat"]
      (fun _ => .success (JVal.obj [("chat",
        JVal.arr [JVal.obj [("sentence", JVal.str "Le ___ dort."),
                            ("hint", JVal.str "animal"),
                            ("acceptedAnswers", JVal.arr [JVal.str "chat"])]])])))
      = { result := [("chat", [JVal.obj [("sentence", JVal.str "Le ___ dort."),
                                         ("hint", JVal.str "animal"),
                                         ("acceptedAnswers", JVal.arr [JVal.str "chat"])]])],
          sleeps := [], calls := 1 } := rfl

/-- The remaining-lemmas computation of main
(src/scripts/generate-cards.py line 232): the target lemmas that are not
keys of the loaded store, in their original order. -/
def remainingOf (target : List String) (existing : Store) : List String :=
  target.filter (fun l => !hasKey existing l)

/-- Fuel-driven slicing loop: the list comprehension
remaining[i:i + batch_size] for i in range(0, len(remaining), batch_size)
(src/scripts/generate-cards.py lines 240-241). The fuel is consumed one
unit per produced batch; chunksOf supplies the list's length, which
suffices for any positive batch size. -/
def chunksGo (bsize : Nat) : Nat → List String → List (List String)
  | 0, _ => []
  | _, [] => []
  | fuel + 1, l => l.take bsize :: chunksGo bsize fuel (l.drop bsize)

/-- Partition of the remaining lemmas into contiguous batches of at most
bsize elements (the last batch may be shorter). A non-positive batch
size yields no batches. -/
def chunksOf (bsize : Nat) (l : List String) : List (List String) :=
  if bsize = 0 then [] else chunksGo bsize l.length l

/-- Observable state of one pipeline run: the in-memory store, the
number of service calls made, the generated-lemma count, the failed
lemmas in order of recording, and the number of store writes. -/
structure RunState : Type where
  store : Store
  genCalls : Nat
  generated : Nat
  failed : List String
  saves : Nat

/-- The per-batch body of main's loop (src/scripts/generate-cards.py
lines 249-266): call generate_batch; on a truthy (non-empty) result,
merge it into the store with dict.update, count its entries, record the
batch lemmas missing from the result as failed, and save the store; on
an empty result, record the whole batch as failed and do not save. -/
def batchStep (oracle1 : Nat → AttemptOutcome) (st : RunState) (batch : List String) :
    RunState :=
  let g := generate_batch batch oracle1
  if g.result.isEmpty then
    { store := st.store
      genCalls := st.genCalls + g.calls
      generated := st.generated
      failed := st.failed ++ batch
      saves := st.saves }
  else
    { store := dictUpdate st.store g.result
      genCalls := st.genCalls + g.calls
      generated := st.generated + g.result.length
      failed := st.failed ++ batch.filter (fun l => !hasKey g.result l)
      saves := st.saves + 1 }

/-- main's loop over the batches, in order; the oracle is indexed by the
batch position. -/
def runBatches (oracle : Nat → Nat → AttemptOutcome) :
    Nat → RunState → List (List String) → RunState
  | _, st, [] => st
  | i, st, b :: bs => runBatches oracle (i + 1) (batchStep (oracle i) st b) bs

/-- The generation part of main (src/scripts/generate-cards.py lines
227-266): load the existing store (here passed in already loaded),
compute the remaining lemmas, return at once when nothing remains
(before any batch is built and with zero service calls), otherwise
slice the remaining lemmas into batches and process them in order. -/
def runPipeline (target : List String) (existing0 : Store) (bsize : Nat)
    (oracle : Nat → Nat → AttemptOutcome) : RunState :=
  let remaining := remainingOf target existing0
  if remaining.isEmpty then
    { store := existing0, genCalls := 0, generated := 0, failed := [], saves := 0 }
  else
    runBatches oracle 0
      { store := existing0, genCalls := 0, generated := 0, failed := [], saves := 0 }
      (chunksOf bsize remaining)

/-- An error raised while opening, reading, decoding or parsing the
store file inside the try block of load_existing: json.load can raise
json.JSONDecodeError on malformed JSON, an IOError (OSError) on a read
failure, or UnicodeDecodeError on bytes that are not valid UTF-8.
UnicodeDecodeError is a subclass of ValueError, not of JSONDecodeError
or of OSError. -/
inductive ReadErr : Type where
  | jsonDecodeError
  | ioError
  | unicodeDecodeError

/-- load_existing (src/scripts/generate-cards.py lines 89-97). The file
system interaction is abstracted as the input: none models a missing
file (os.path.exists false), some (error e) a file whose open/json.load
raises e, some (ok v) a file parsing to the JSON value v. The except
clause names only (json.JSONDecodeError, IOError); those two errors are
swallowed and the function falls through to returning the empty dict,
while any other error, such as UnicodeDecodeError from a non-UTF-8
file, propagates to the caller (the Except.error result). -/
def load_existing : Option (Except ReadErr JVal) → Except ReadErr JVal
  | none => .ok (.obj [])
  | some (.error .jsonDecodeError) => .ok (.obj [])
  | some (.error .ioError) => .ok (.obj [])
  | some (.error .unicodeDecodeError) => .error .unicodeDecodeError
  | some (.ok v) => .ok v

/-- Python str.strip(): remove leading and trailing whitespace. -/
def pyStrip (s : String) : String :=
  String.mk ((s.toList.dropWhile Char.isWhitespace).reverse.dropWhile
    Char.isWhitespace).reverse

/-- Python row[1] under the guard len(row) > 1: the second column of a
CSV row (the default is never reached under the guard). -/
def secondCol (row : List String) : String :=
  match row with
  | _ :: x :: _ => x
  | _ => ""

namespace GenCards

/-- The row loop of extract_lemmas (src/scripts/generate-cards.py lines
62-66): for each data row having more than one column, take column
index 1 stripped of surrounding whitespace and append it to the
accumulator when it is non-empty and not already present. -/
def extractGo : List (List String) → List String → List String
  | [], acc => acc
  | row :: rest, acc =>
    if 1 < row.length then
      let lemme := pyStrip (secondCol row)
      if lemme ≠ "" ∧ lemme ∉ acc then extractGo rest (acc ++ [lemme])
      else extractGo rest acc
    else extractGo rest acc

/-- extract_lemmas (src/scripts/generate-cards.py lines 55-67) on the
already CSV-parsed rows of the vocabulary file. The two next(reader)
calls consume the description row and the header row, raising
StopIteration (modelled as Except.error) when the file has fewer than
two rows; the remaining rows feed the accumulation loop. Python's
str.strip is modelled by pyStrip. -/
def extract_lemmas (rows : List (List String)) : Except Unit (List String) :=
  match rows with
  | _ :: _ :: rest => .ok (extractGo rest [])
  | _ => .error ()

end GenCards

namespace ProcessWords

/-- The row loop of extract_lemmas (src/process_words.py lines 20-24),
independently written but byte-for-byte the same algorithm as the one in
the generation script. -/
def extractGo : List (List String) → List String → List String
  | [], acc => acc
  | row :: rest, acc =>
    if 1 < row.length then
      let lemme := pyStrip (secondCol row)
      if lemme ≠ "" ∧ lemme ∉ acc then extractGo rest (acc ++ [lemme])
      else extractGo rest acc
    else extractGo rest acc

/-- extract_lemmas (src/process_words.py lines 14-25) on the already
CSV-parsed rows: skip two header rows via next(reader) (StopIteration
modelled as Except.error), then accumulate. -/
def extract_lemmas (rows : List (List String)) : Except Unit (List String) :=
  match rows with
  | _ :: _ :: rest => .ok (extractGo rest [])
  | _ => .error ()

end ProcessWords

/-- The per-row candidate of the extraction loop: for a row with more
than one column whose stripped second column is non-empty, that stripped
string; nothing otherwise. -/
def rowCandidates (rows : List (List String)) : List String :=
  rows.filterMap (fun row =>
    if 1 < row.length then
      (let t := pyStrip (secondCol row)
       if t ≠ "" then some t else none)
    else none)

/-- First-occurrence deduplication relative to an already-seen prefix:
keep an element only when it is neither in seen nor kept before. -/
def dedupAgainst (seen : List String) : List String → List String
  | [] => []
  | x :: xs =>
    if x ∈ seen then dedupAgainst seen xs
    else x :: dedupAgainst (seen ++ [x]) xs

/-- First-occurrence deduplication of a list, preserving order. -/
def dedupFirst (l : List String) : List String :=
  dedupAgainst [] l

example : GenCards.extract_lemmas
    [["desc"], ["freq", "lemme"], ["1", " le "], ["2", "la"], ["3", "le"],
     ["4"], ["5", "  "]] = Except.ok ["le", "la"] := rfl

example : GenCards.extract_lemmas [["only one row"]] = Except.error () := rfl

/-- The exact placeholder token replaced by build_prompt. -/
def LEMMA_LIST_TOKEN : List Char := "\x7bLEMMA_LIST\x7d".toList

/-- One pass of Python str.replace for a fixed non-empty pattern: scan
left to right, and at each position where the pattern starts, emit the
replacement and continue after the pattern; non-overlapping, all
occurrences. The fuel is at least the length of the scanned list, which
keeps the recursion structural; the token is 12 characters long, so the
empty-pattern corner of str.replace never arises. -/
def replaceGo (pat rep : List Char) : Nat → List Char → List Char
  | 0, s => s
  | fuel + 1, s =>
    match s with
    | [] => []
    | c :: rest =>
      if pat.isPrefixOf s then rep ++ replaceGo pat rep fuel (s.drop pat.length)
      else c :: replaceGo pat rep fuel rest

/-- Python str.replace(pat, rep) with the fuel pre-filled. -/
def replaceAll (pat rep s : List Char) : List Char :=
  replaceGo pat rep s.length s

/-- The comma-and-space join of the batch lemmas:
", ".join(lemmas) (src/scripts/generate-cards.py line 85). -/
def joinLemmas (lemmas : List String) : List Char :=
  (String.intercalate ", " lemmas).toList

/-- build_prompt (src/scripts/generate-cards.py lines 83-86):
template.replace placing the joined lemmas at every occurrence of the
placeholder token. Strings are handled as character lists to expose the
scan. -/
def build_prompt (template : List Char) (lemmas : List String) : List Char :=
  replaceAll LEMMA_LIST_TOKEN (joinLemmas lemmas) template

example : build_prompt "Use \x7bLEMMA_LIST\x7d now".toList ["le", "la"]
    = "Use le, la now".toList := rfl

example : build_prompt "no token here".toList ["le", "la"]
    = "no token here".toList := rfl

/-- Claim-side predicate (C2): a candidate card is kept when it is a
mapping whose sentence is a non-empty string containing the literal
blank marker, whose hint is non-empty (Python-truthy), and whose
acceptedAnswers is a non-empty list. -/
def claimKeepC2 : JVal → Bool
  | .obj fields =>
    (match jget fields "sentence" (.str "") with
     | .str s => (!s.isEmpty) && isSubstringOf "___".toList s.toList
     | _ => false)
    && truthy (jget fields "hint" (.str ""))
    && (match jget fields "acceptedAnswers" (.arr []) with
        | .arr xs => !xs.isEmpty
        | _ => false)
  | _ => false

/-- The dict rebuilt by validate_card for a kept candidate: exactly the
three consulted fields, in that order. -/
def normalizeCard : JVal → JVal
  | .obj fields => .obj [("sentence", jget fields "sentence" (.str "")),
                         ("hint", jget fields "hint" (.str "")),
                         ("acceptedAnswers", jget fields "acceptedAnswers" (.arr []))]
  | v => v

/-- Side condition under which validate_card cannot raise: every
candidate that is a mapping carries a string (or absent, defaulting to
the empty string) sentence field. -/
def sentenceIsStr : JVal → Bool
  | .obj fields =>
    (match jget fields "sentence" (.str "") with
     | .str _ => true
     | _ => false)
  | _ => true

/-- Oracle for the C1 witness: the service answers every attempt of
every batch with a well-formed response covering both target lemmas. -/
def c1DemoOracle : Nat → Nat → AttemptOutcome := fun _ _ =>
  .success (.obj
    [("chat", .arr [.obj [("sentence", .str "Le ___ dort."),
                          ("hint", .str "animal"),
                          ("acceptedAnswers", .arr [.str "chat"])]]),
     ("chien", .arr [.obj [("sentence", .str "Le ___ court."),
                           ("hint", .str "animal"),
                           ("acceptedAnswers", .arr [.str "chien"])]])])

/-- Oracle for the C4 witness: every attempt raises a generic API error. -/
def c4DemoOracle : Nat → AttemptOutcome := fun _ => .apiError

/-- Oracle for the C5 witness: every attempt is rate limited with a
provider-suggested delay of 40 seconds in the error text. -/
def c5DemoOracle : Nat → AttemptOutcome := fun _ => .rateLimited (some 40)

/-- Oracle for the C7 witness: the service answers with a response that
covers the lemma chat only. -/
def c7DemoOracle : Nat → Nat → AttemptOutcome := fun _ _ =>
  .success (.obj
    [("chat", .arr [.obj [("sentence", .str "Le ___ dort."),
                          ("hint", .str "animal"),
                          ("acceptedAnswers", .arr [.str "chat"])]])])

/-- Oracle for the C8 witness: every attempt yields unparsable JSON. -/
def c8DemoOracle : Nat → AttemptOutcome := fun _ => .jsonError

/-
Supporting lemmas about the dict operations.
-/

theorem hasKey_mapSet (d : Store) (k : String) (v : List JVal) (k' : String) :
    hasKey (d.map (fun p => if p.1 = k then (k, v) else p)) k' = hasKey d k' := by
  unfold hasKey
  rw [List.any_map]
  congr 1
  funext p
  by_cases hp : p.1 = k <;> simp [hp]

theorem hasKey_dictSet (d : Store) (k : String) (v : List JVal) (k' : String) :
    hasKey (dictSet d k v) k' = (hasKey d k' || (k == k')) := by
  unfold dictSet
  by_cases h : hasKey d k
  · rw [if_pos h, hasKey_mapSet]
    by_cases hk : k = k'
    · subst hk; simp [h]
    · have : (k == k') = false := by simp [hk]
      simp [this]
  · rw [if_neg h]
    simp [hasKey, List.any_append]

theorem lookup_mapSet (d : Store) (k : String) (v : List JVal) (k' : String)
    (h : k ≠ k') :
    List.lookup k' (d.map (fun p => if p.1 = k then (k, v) else p)) =
      List.lookup k' d := by
  induction d with
  | nil => rfl
  | cons p d ih =>
    obtain ⟨p1, p2⟩ := p
    simp only [List.map_cons]
    by_cases hp : p1 = k
    · subst hp
      rw [if_pos (rfl : (p1, p2).1 = p1)]
      have h2 : (k' == p1) = false := by simp [Ne.symm h]
      simp [List.lookup, h2, ih]
    · rw [if_neg (hp : ¬(p1, p2).1 = k)]
      by_cases hq : k' = p1
      · subst hq
        simp [List.lookup]
      · have h2 : (k' == p1) = false := by simp [hq]
        simp [List.lookup, h2, ih]

theorem lookup_append_single (d : Store) (k : String) (v : List JVal) (k' : String)
    (h : k ≠ k') :
    List.lookup k' (d ++ [(k, v)]) = List.lookup k' d := by
  induction d with
  | nil =>
    have h1 : (k' == k) = false := by simp [Ne.symm h]
    simp [List.lookup, h1]
  | cons p d ih =>
    obtain ⟨p1, p2⟩ := p
    by_cases hq : k' = p1
    · subst hq
      simp [List.lookup]
    · have h2 : (k' == p1) = false := by simp [hq]
      simp [List.lookup, h2, ih]

theorem dictGet_dictSet_ne (d : Store) (k : String) (v : List JVal) (k' : String)
    (h : k ≠ k') : dictGet (dictSet d k v) k' = dictGet d k' := by
  unfold dictSet dictGet
  by_cases hk : hasKey d k
  · rw [if_pos hk]
    exact lookup_mapSet d k v k' h
  · rw [if_neg hk]
    exact lookup_append_single d k v k' h

theorem hasKey_dictUpdate (d r : Store) (k : String) :
    hasKey (dictUpdate d r) k = (hasKey d k || hasKey r k) := by
  induction r generalizing d with
  | nil => simp [dictUpdate, hasKey]
  | cons p r ih =>
    show hasKey (dictUpdate (dictSet d p.1 p.2) r) k = _
    rw [ih, hasKey_dictSet]
    simp [hasKey, List.any_cons, Bool.or_assoc]

theorem dictGet_dictUpdate_not_mem (d r : Store) (k : String)
    (h : hasKey r k = false) : dictGet (dictUpdate d r) k = dictGet d k := by
  induction r generalizing d with
  | nil => rfl
  | cons p r ih =>
    simp only [hasKey, List.any_cons, Bool.or_eq_false_iff] at h
    show dictGet (dictUpdate (dictSet d p.1 p.2) r) k = _
    rw [ih _ (by simp [hasKey, h.2]), dictGet_dictSet_ne]
    intro he
    rw [he] at h
    simp at h

theorem mem_dictSet (d : Store) (k : String) (v : List JVal)
    (q : String × List JVal) (h : q ∈ dictSet d k v) : q ∈ d ∨ q = (k, v) := by
  unfold dictSet at h
  by_cases hk : hasKey d k
  · rw [if_pos hk] at h
    rcases List.mem_map.mp h with ⟨p, hp, he⟩
    by_cases hc : p.1 = k
    · right
      rw [← he]
      simp [hc]
    · left
      rw [← he]
      simpa [hc] using hp
  · rw [if_neg hk] at h
    rcases List.mem_append.mp h with h1 | h1
    · exact Or.inl h1
    · exact Or.inr (by simpa using h1)

/-
Supporting lemmas about the batch result builder and the retry loop.
-/

theorem buildResult_keys (data : List (String × JVal)) :
    ∀ (lems : List String) (acc r : Store) (k : String),
    buildResult data lems acc = .ok r → hasKey r k = true →
    hasKey acc k = true ∨ k ∈ lems := by
  intro lems
  induction lems with
  | nil =>
    intro acc r k h hk
    simp only [buildResult] at h
    cases h
    exact Or.inl hk
  | cons lem rest ih =>
    intro acc r k h hk
    simp only [buildResult] at h
    by_cases hd : data.any (fun p => p.1 == lem)
    · rw [if_pos hd] at h
      cases hv : validate_card lem (jget data lem .null) with
      | error e => simp only [hv] at h; cases h
      | ok validated =>
        simp only [hv] at h
        by_cases he : validated.isEmpty
        · rw [if_pos he] at h
          rcases ih acc r k h hk with h1 | h1
          · exact Or.inl h1
          · exact Or.inr (List.mem_cons_of_mem _ h1)
        · rw [if_neg he] at h
          rcases ih _ r k h hk with h1 | h1
          · rw [hasKey_dictSet] at h1
            rcases Bool.or_eq_true_iff.mp h1 with h2 | h2
            · exact Or.inl h2
            · have : lem = k := by simpa using h2
              exact Or.inr (this ▸ List.mem_cons_self _ _)
          · exact Or.inr (List.mem_cons_of_mem _ h1)
    · rw [if_neg hd] at h
      rcases ih acc r k h hk with h1 | h1
      · exact Or.inl h1
      · exact Or.inr (List.mem_cons_of_mem _ h1)

theorem buildResult_values_nonempty (data : List (String × JVal)) :
    ∀ (lems : List String) (acc r : Store),
    buildResult data lems acc = .ok r → (∀ q ∈ acc, q.2 ≠ []) →
    ∀ q ∈ r, q.2 ≠ [] := by
  intro lems
  induction lems with
  | nil =>
    intro acc r h hacc
    simp only [buildResult] at h
    cases h
    exact hacc
  | cons lem rest ih =>
    intro acc r h hacc
    simp only [buildResult] at h
    by_cases hd : data.any (fun p => p.1 == lem)
    · rw [if_pos hd] at h
      cases hv : validate_card lem (jget data lem .null) with
      | error e => simp only [hv] at h; cases h
      | ok validated =>
        simp only [hv] at h
        by_cases he : validated.isEmpty
        · rw [if_pos he] at h
          exact ih acc r h hacc
        · rw [if_neg he] at h
          refine ih _ r h ?_
          intro q hq
          rcases mem_dictSet _ _ _ _ hq with h1 | h1
          · exact hacc q h1
          · rw [h1]
            simpa using he
    · rw [if_neg hd] at h
      exact ih acc r h hacc

theorem genLoop_step_return (lems : List String) (oracle : Nat → AttemptOutcome)
    (attempt fuel : Nat) (fields : List (String × JVal)) (r : Store)
    (ho : oracle attempt = .success (.obj fields))
    (hb : buildResult fields lems [] = .ok r) :
    genLoop lems oracle attempt (fuel + 1) = { result := r, sleeps := [], calls := 1 } := by
  simp only [genLoop, ho, hb]

theorem genLoop_step_rate (lems : List String) (oracle : Nat → AttemptOutcome)
    (attempt fuel : Nat) (s : Option Nat)
    (ho : oracle attempt = .rateLimited s) :
    genLoop lems oracle attempt (fuel + 1) =
      { result := (genLoop lems oracle (attempt + 1) fuel).result
        sleeps := rateLimitWait attempt s :: (genLoop lems oracle (attempt + 1) fuel).sleeps
        calls := (genLoop lems oracle (attempt + 1) fuel).calls + 1 } := by
  simp only [genLoop, ho]

theorem genLoop_step_transient (lems : List String) (oracle : Nat → AttemptOutcome)
    (attempt fuel : Nat)
    (ht : isTransientFailure lems (oracle attempt) = true) :
    genLoop lems oracle attempt (fuel + 1) =
      { result := (genLoop lems oracle (attempt + 1) fuel).result
        sleeps := (if attempt < MAX_RETRIES then [transientDelay attempt] else [])
                    ++ (genLoop lems oracle (attempt + 1) fuel).sleeps
        calls := (genLoop lems oracle (attempt + 1) fuel).calls + 1 } := by
  cases ho : oracle attempt with
  | success d =>
    rw [ho] at ht
    cases d with
    | obj fields =>
      simp only [isTransientFailure, attemptReturns, Bool.not_eq_true'] at ht
      cases hb : buildResult fields lems [] with
      | ok r => rw [hb] at ht; simp [Except.toBool] at ht
      | error e => simp only [genLoop, ho, hb]
    | str s => simp only [genLoop, ho]
    | num n => simp only [genLoop, ho]
    | bool b => simp only [genLoop, ho]
    | null => simp only [genLoop, ho]
    | arr xs => simp only [genLoop, ho]
  | jsonError => simp only [genLoop, ho]
  | rateLimited s => rw [ho] at ht; simp [isTransientFailure] at ht
  | apiError => simp only [genLoop, ho]

theorem genLoop_step_no_return (lems : List String) (oracle : Nat → AttemptOutcome)
    (attempt fuel : Nat)
    (hn : attemptReturns lems (oracle attempt) = false) :
    (genLoop lems oracle attempt (fuel + 1)).result =
      (genLoop lems oracle (attempt + 1) fuel).result := by
  cases ho : oracle attempt with
  | success d =>
    rw [ho] at hn
    cases d with
    | obj fields =>
      simp only [attemptReturns] at hn
      cases hb : buildResult fields lems [] with
      | ok r => rw [hb] at hn; simp [Except.toBool] at hn
      | error e => simp only [genLoop, ho, hb]
    | str s => simp only [genLoop, ho]
    | num n => simp only [genLoop, ho]
    | bool b => simp only [genLoop, ho]
    | null => simp only [genLoop, ho]
    | arr xs => simp only [genLoop, ho]
  | jsonError => simp only [genLoop, ho]
  | rateLimited s => simp only [genLoop, ho]
  | apiError => simp only [genLoop, ho]

theorem genLoop_calls_le (lems : List String) (oracle : Nat → AttemptOutcome) :
    ∀ (fuel attempt : Nat), (genLoop lems oracle attempt fuel).calls ≤ fuel := by
  intro fuel
  induction fuel with
  | zero => intro attempt; simp [genLoop]
  | succ fuel ih =>
    intro attempt
    by_cases hr : attemptReturns lems (oracle attempt) = true
    · cases ho : oracle attempt with
      | success d =>
        rw [ho] at hr
        cases d with
        | obj fields =>
          simp only [attemptReturns] at hr
          cases hb : buildResult fields lems [] with
          | ok r =>
            rw [genLoop_step_return lems oracle attempt fuel fields r ho hb]
            simp
          | error e => rw [hb] at hr; simp [Except.toBool] at hr
        | str s => simp [attemptReturns] at hr
        | num n => simp [attemptReturns] at hr
        | bool b => simp [attemptReturns] at hr
        | null => simp [attemptReturns] at hr
        | arr xs => simp [attemptReturns] at hr
      | jsonError => rw [ho] at hr; simp [attemptReturns] at hr
      | rateLimited s => rw [ho] at hr; simp [attemptReturns] at hr
      | apiError => rw [ho] at hr; simp [attemptReturns] at hr
    · rw [Bool.not_eq_true] at hr
      by_cases hrl : ∃ s, oracle attempt = .rateLimited s
      · rcases hrl with ⟨s, ho⟩
        rw [genLoop_step_rate lems oracle attempt fuel s ho]
        exact Nat.succ_le_succ (ih (attempt + 1))
      · have ht : isTransientFailure lems (oracle attempt) = true := by
          cases ho : oracle attempt with
          | success d => simp [isTransientFailure, ho ▸ hr]
          | jsonError => simp [isTransientFailure]
          | rateLimited s => exact absurd ⟨s, ho⟩ hrl
          | apiError => simp [isTransientFailure]
        rw [genLoop_step_transient lems oracle attempt fuel ht]
        exact Nat.succ_le_succ (ih (attempt + 1))

theorem genLoop_result_keys (lems : List String) (oracle : Nat → AttemptOutcome) :
    ∀ (fuel attempt : Nat) (k : String),
    hasKey (genLoop lems oracle attempt fuel).result k = true → k ∈ lems := by
  intro fuel
  induction fuel with
  | zero =>
    intro attempt k h
    simp [genLoop, hasKey] at h
  | succ fuel ih =>
    intro attempt k h
    by_cases hr : attemptReturns lems (oracle attempt) = true
    · cases ho : oracle attempt with
      | success d =>
        rw [ho] at hr
        cases d with
        | obj fields =>
          simp only [attemptReturns] at hr
          cases hb : buildResult fields lems [] with
          | ok r =>
            rw [genLoop_step_return lems oracle attempt fuel fields r ho hb] at h
            rcases buildResult_keys fields lems [] r k hb h with h1 | h1
            · simp [hasKey] at h1
            · exact h1
          | error e => rw [hb] at hr; simp [Except.toBool] at hr
        | str s => simp [attemptReturns] at hr
        | num n => simp [attemptReturns] at hr
        | bool b => simp [attemptReturns] at hr
        | null => simp [attemptReturns] at hr
        | arr xs => simp [attemptReturns] at hr
      | jsonError => rw [ho] at hr; simp [attemptReturns] at hr
      | rateLimited s => rw [ho] at hr; simp [attemptReturns] at hr
      | apiError => rw [ho] at hr; simp [attemptReturns] at hr
    · rw [Bool.not_eq_true] at hr
      rw [genLoop_step_no_return lems oracle attempt fuel hr] at h
      exact ih (attempt + 1) k h

theorem genLoop_result_nil (lems : List String) (oracle : Nat → AttemptOutcome) :
    ∀ (fuel attempt : Nat),
    (∀ n, attempt ≤ n → n < attempt + fuel → attemptReturns lems (oracle n) = false) →
    (genLoop lems oracle attempt fuel).result = [] := by
  intro fuel
  induction fuel with
  | zero => intro attempt _; simp [genLoop]
  | succ fuel ih =>
    intro attempt h
    have h0 : attemptReturns lems (oracle attempt) = false :=
      h attempt (Nat.le_refl _) (by omega)
    rw [genLoop_step_no_return lems oracle attempt fuel h0]
    exact ih (attempt + 1) (fun n h1 h2 => h n (by omega) (by omega))

theorem genLoop_transient_sleeps (lems : List String) (oracle : Nat → AttemptOutcome) :
    ∀ (fuel attempt : Nat),
    (∀ n, attempt ≤ n → n < attempt + fuel → isTransientFailure lems (oracle n) = true) →
    (genLoop lems oracle attempt fuel).sleeps =
      ((List.range' attempt fuel).filter (fun n => n < MAX_RETRIES)).map transientDelay := by
  intro fuel
  induction fuel with
  | zero => intro attempt _; simp [genLoop]
  | succ fuel ih =>
    intro attempt h
    have h0 : isTransientFailure lems (oracle attempt) = true :=
      h attempt (Nat.le_refl _) (by omega)
    rw [genLoop_step_transient lems oracle attempt fuel h0]
    show (if attempt < MAX_RETRIES then [transientDelay attempt] else [])
          ++ (genLoop lems oracle (attempt + 1) fuel).sleeps = _
    rw [ih (attempt + 1) (fun n h1 h2 => h n (by omega) (by omega))]
    rw [List.range'_succ]
    by_cases hm : attempt < MAX_RETRIES
    · rw [if_pos hm]
      rw [List.filter_cons_of_pos (by simpa using hm)]
      simp
    · rw [if_neg hm]
      rw [List.filter_cons_of_neg (by simpa using hm)]
      simp

/-
Supporting lemmas about the per-batch step and the batch loop.
-/

theorem batchStep_store_hasKey (oracle1 : Nat → AttemptOutcome) (st : RunState)
    (batch : List String) (k : String) (h : hasKey st.store k = true) :
    hasKey (batchStep oracle1 st batch).store k = true := by
  unfold batchStep
  by_cases he : (generate_batch batch oracle1).result.isEmpty
  · rw [if_pos he]
    exact h
  · rw [if_neg he]
    show hasKey (dictUpdate st.store _) k = true
    rw [hasKey_dictUpdate, h]
    rfl

theorem batchStep_store_scope (oracle1 : Nat → AttemptOutcome) (st : RunState)
    (batch : List String) (k : String)
    (h : hasKey (batchStep oracle1 st batch).store k = true) :
    hasKey st.store k = true ∨ k ∈ batch := by
  unfold batchStep at h
  by_cases he : (generate_batch batch oracle1).result.isEmpty
  · rw [if_pos he] at h
    exact Or.inl h
  · rw [if_neg he] at h
    replace h : hasKey (dictUpdate st.store (generate_batch batch oracle1).result) k = true := h
    rw [hasKey_dictUpdate] at h
    rcases Bool.or_eq_true_iff.mp h with h1 | h1
    · exact Or.inl h1
    · exact Or.inr (genLoop_result_keys batch oracle1 MAX_RETRIES 1 k h1)

theorem batchStep_store_preserve (oracle1 : Nat → AttemptOutcome) (st : RunState)
    (batch : List String) (k : String) (h : k ∉ batch) :
    dictGet (batchStep oracle1 st batch).store k = dictGet st.store k := by
  unfold batchStep
  by_cases he : (generate_batch batch oracle1).result.isEmpty
  · rw [if_pos he]
  · rw [if_neg he]
    show dictGet (dictUpdate st.store _) k = _
    apply dictGet_dictUpdate_not_mem
    by_contra hc
    rw [Bool.not_eq_false] at hc
    exact h (genLoop_result_keys batch oracle1 MAX_RETRIES 1 k hc)

theorem batchStep_failed (oracle1 : Nat → AttemptOutcome) (st : RunState)
    (batch : List String) :
    ∃ ext, (batchStep oracle1 st batch).failed = st.failed ++ ext := by
  unfold batchStep
  by_cases he : (generate_batch batch oracle1).result.isEmpty
  · rw [if_pos he]
    exact ⟨batch, rfl⟩
  · rw [if_neg he]
    exact ⟨_, rfl⟩

theorem runBatches_store_hasKey (oracle : Nat → Nat → AttemptOutcome) :
    ∀ (bs : List (List String)) (i : Nat) (st : RunState) (k : String),
    hasKey st.store k = true → hasKey (runBatches oracle i st bs).store k = true := by
  intro bs
  induction bs with
  | nil => intro i st k h; exact h
  | cons b bs ih =>
    intro i st k h
    exact ih (i + 1) _ k (batchStep_store_hasKey (oracle i) st b k h)

theorem runBatches_store_scope (oracle : Nat → Nat → AttemptOutcome) :
    ∀ (bs : List (List String)) (i : Nat) (st : RunState) (k : String),
    hasKey (runBatches oracle i st bs).store k = true →
    hasKey st.store k = true ∨ ∃ b ∈ bs, k ∈ b := by
  intro bs
  induction bs with
  | nil => intro i st k h; exact Or.inl h
  | cons b bs ih =>
    intro i st k h
    rcases ih (i + 1) _ k h with h1 | h1
    · rcases batchStep_store_scope (oracle i) st b k h1 with h2 | h2
      · exact Or.inl h2
      · exact Or.inr ⟨b, List.mem_cons_self _ _, h2⟩
    · rcases h1 with ⟨b', hb', hk⟩
      exact Or.inr ⟨b', List.mem_cons_of_mem _ hb', hk⟩

theorem runBatches_store_preserve (oracle : Nat → Nat → AttemptOutcome) :
    ∀ (bs : List (List String)) (i : Nat) (st : RunState) (k : String),
    (∀ b ∈ bs, k ∉ b) →
    dictGet (runBatches oracle i st bs).store k = dictGet st.store k := by
  intro bs
  induction bs with
  | nil => intro i st k _; rfl
  | cons b bs ih =>
    intro i st k h
    show dictGet (runBatches oracle (i + 1) (batchStep (oracle i) st b) bs).store k = _
    rw [ih (i + 1) _ k (fun b' hb' => h b' (List.mem_cons_of_mem _ hb'))]
    exact batchStep_store_preserve (oracle i) st b k (h b (List.mem_cons_self _ _))

theorem runBatches_failed_ext (oracle : Nat → Nat → AttemptOutcome) :
    ∀ (bs : List (List String)) (i : Nat) (st : RunState),
    ∃ ext, (runBatches oracle i st bs).failed = st.failed ++ ext := by
  intro bs
  induction bs with
  | nil => intro i st; exact ⟨[], by simp [runBatches]⟩
  | cons b bs ih =>
    intro i st
    rcases ih (i + 1) (batchStep (oracle i) st b) with ⟨ext2, h2⟩
    rcases batchStep_failed (oracle i) st b with ⟨ext1, h1⟩
    exact ⟨ext1 ++ ext2, by rw [runBatches, h2, h1, List.append_assoc]⟩

theorem runBatches_failed_nil_covers (oracle : Nat → Nat → AttemptOutcome) :
    ∀ (bs : List (List String)) (i : Nat) (st : RunState),
    (runBatches oracle i st bs).failed = [] →
    ∀ b ∈ bs, ∀ l ∈ b, hasKey (runBatches oracle i st bs).store l = true := by
  intro bs
  induction bs with
  | nil => intro i st _ b hb; cases hb
  | cons b bs ih =>
    intro i st hfail b' hb' l hl
    have hstep : (runBatches oracle i st (b :: bs)) =
        runBatches oracle (i + 1) (batchStep (oracle i) st b) bs := rfl
    rcases runBatches_failed_ext oracle bs (i + 1) (batchStep (oracle i) st b) with ⟨ext, hext⟩
    rw [hstep] at hfail
    rw [hext] at hfail
    have hstf : (batchStep (oracle i) st b).failed = [] :=
      (List.append_eq_nil.mp hfail).1
    rcases List.mem_cons.mp hb' with h1 | h1
    · subst h1
      have hinres : hasKey (generate_batch b' (oracle i)).result l = true := by
        unfold batchStep at hstf
        by_cases he : (generate_batch b' (oracle i)).result.isEmpty
        · rw [if_pos he] at hstf
          have : b' = [] := (List.append_eq_nil.mp hstf).2
          rw [this] at hl
          cases hl
        · rw [if_neg he] at hstf
          have hfil : b'.filter (fun x => !hasKey (generate_batch b' (oracle i)).result x) = [] :=
            (List.append_eq_nil.mp hstf).2
          have := List.filter_eq_nil_iff.mp hfil l hl
          simpa using this
      have hstore : hasKey (batchStep (oracle i) st b').store l = true := by
        unfold batchStep
        have he : ¬ ((generate_batch b' (oracle i)).result.isEmpty = true) := by
          intro hc
          have hnil : (generate_batch b' (oracle i)).result = [] := by
            cases hres : (generate_batch b' (oracle i)).result with
            | nil => rfl
            | cons q qs => rw [hres] at hc; exact Bool.noConfusion hc
          rw [hnil] at hinres
          simp [hasKey] at hinres
        rw [if_neg he]
        show hasKey (dictUpdate st.store _) l = true
        rw [hasKey_dictUpdate, hinres]
        simp
      rw [hstep]
      exact runBatches_store_hasKey oracle bs (i + 1) _ l hstore
    · rw [hstep]
      exact ih (i + 1) (batchStep (oracle i) st b) (by rw [hext]; exact hfail) b' h1 l hl

/-
Supporting lemmas about the batch slicing.
-/

theorem chunksGo_flatten (bsize : Nat) (hb : bsize ≠ 0) :
    ∀ (fuel : Nat) (l : List String), l.length ≤ fuel →
    (chunksGo bsize fuel l).flatten = l := by
  intro fuel
  induction fuel with
  | zero =>
    intro l hl
    have : l = [] := List.eq_nil_of_length_eq_zero (Nat.le_zero.mp hl)
    rw [this]
    rfl
  | succ fuel ih =>
    intro l hl
    cases l with
    | nil => rfl
    | cons x xs =>
      show (List.take bsize (x :: xs) :: chunksGo bsize fuel (List.drop bsize (x :: xs))).flatten
            = x :: xs
      rw [List.flatten_cons]
      rw [ih (List.drop bsize (x :: xs)) (by
        rw [List.length_drop]
        simp only [List.length_cons] at hl ⊢
        omega)]
      exact List.take_append_drop bsize (x :: xs)

theorem chunksOf_flatten (bsize : Nat) (l : List String) (hb : bsize ≠ 0) :
    (chunksOf bsize l).flatten = l := by
  unfold chunksOf
  rw [if_neg hb]
  exact chunksGo_flatten bsize hb l.length l (Nat.le_refl _)

theorem mem_of_mem_chunksOf (bsize : Nat) (l : List String) (b : List String)
    (k : String) (hb : bsize ≠ 0) (h1 : b ∈ chunksOf bsize l) (h2 : k ∈ b) :
    k ∈ l := by
  rw [← chunksOf_flatten bsize l hb]
  exact List.mem_flatten.mpr ⟨b, h1, h2⟩

theorem exists_chunk_of_mem (bsize : Nat) (l : List String) (k : String)
    (hb : bsize ≠ 0) (h : k ∈ l) : ∃ b ∈ chunksOf bsize l, k ∈ b := by
  rw [← chunksOf_flatten bsize l hb] at h
  exact List.mem_flatten.mp h

/-
Supporting lemmas about lemma extraction and first-occurrence dedup.
-/

theorem mem_dedupAgainst_not_seen :
    ∀ (l seen : List String) (x : String), x ∈ dedupAgainst seen l → x ∉ seen := by
  intro l
  induction l with
  | nil => intro seen x h; cases h
  | cons y ys ih =>
    intro seen x h
    simp only [dedupAgainst] at h
    by_cases hy : y ∈ seen
    · rw [if_pos hy] at h
      exact ih seen x h
    · rw [if_neg hy] at h
      rcases List.mem_cons.mp h with h1 | h1
      · rw [h1]; exact hy
      · intro hc
        exact ih (seen ++ [y]) x h1 (List.mem_append_left _ hc)

theorem mem_dedupAgainst_mem :
    ∀ (l seen : List String) (x : String), x ∈ dedupAgainst seen l → x ∈ l := by
  intro l
  induction l with
  | nil => intro seen x h; cases h
  | cons y ys ih =>
    intro seen x h
    simp only [dedupAgainst] at h
    by_cases hy : y ∈ seen
    · rw [if_pos hy] at h
      exact List.mem_cons_of_mem _ (ih seen x h)
    · rw [if_neg hy] at h
      rcases List.mem_cons.mp h with h1 | h1
      · rw [h1]; exact List.mem_cons_self _ _
      · exact List.mem_cons_of_mem _ (ih (seen ++ [y]) x h1)

theorem nodup_dedupAgainst :
    ∀ (l seen : List String), (dedupAgainst seen l).Nodup := by
  intro l
  induction l with
  | nil => intro seen; exact List.nodup_nil
  | cons y ys ih =>
    intro seen
    simp only [dedupAgainst]
    by_cases hy : y ∈ seen
    · rw [if_pos hy]
      exact ih seen
    · rw [if_neg hy]
      refine List.Nodup.cons ?_ (ih (seen ++ [y]))
      intro hc
      exact mem_dedupAgainst_not_seen ys (seen ++ [y]) y hc
        (List.mem_append_right _ (List.mem_singleton.mpr rfl))

theorem rowCandidates_cons_long (row : List String) (rest : List (List String))
    (h1 : 1 < row.length) (h2 : pyStrip (secondCol row) ≠ "") :
    rowCandidates (row :: rest) = pyStrip (secondCol row) :: rowCandidates rest := by
  simp only [rowCandidates, List.filterMap_cons]
  rw [if_pos h1, if_pos h2]

theorem rowCandidates_cons_empty (row : List String) (rest : List (List String))
    (h1 : 1 < row.length) (h2 : ¬ pyStrip (secondCol row) ≠ "") :
    rowCandidates (row :: rest) = rowCandidates rest := by
  simp only [rowCandidates, List.filterMap_cons]
  rw [if_pos h1, if_neg h2]

theorem rowCandidates_cons_short (row : List String) (rest : List (List String))
    (h1 : ¬ 1 < row.length) :
    rowCandidates (row :: rest) = rowCandidates rest := by
  simp only [rowCandidates, List.filterMap_cons]
  rw [if_neg h1]

theorem extractGo_eq_dedup :
    ∀ (rows : List (List String)) (acc : List String),
    GenCards.extractGo rows acc = acc ++ dedupAgainst acc (rowCandidates rows) := by
  intro rows
  induction rows with
  | nil => intro acc; simp [GenCards.extractGo, rowCandidates, dedupAgainst]
  | cons row rest ih =>
    intro acc
    simp only [GenCards.extractGo]
    by_cases h1 : 1 < row.length
    · rw [if_pos h1]
      by_cases h2 : pyStrip (secondCol row) ≠ ""
      · rw [rowCandidates_cons_long row rest h1 h2]
        by_cases h3 : pyStrip (secondCol row) ∈ acc
        · have hng : ¬ (pyStrip (secondCol row) ≠ "" ∧ pyStrip (secondCol row) ∉ acc) := by
            intro hc
            exact hc.2 h3
          rw [if_neg hng, ih acc]
          congr 1
          simp only [dedupAgainst]
          rw [if_pos h3]
        · rw [if_pos ⟨h2, h3⟩, ih (acc ++ [pyStrip (secondCol row)])]
          simp only [dedupAgainst]
          rw [if_neg h3, List.append_assoc]
          rfl
      · have hng : ¬ (pyStrip (secondCol row) ≠ "" ∧ pyStrip (secondCol row) ∉ acc) := by
          intro hc
          exact h2 hc.1
        rw [if_neg hng, rowCandidates_cons_empty row rest h1 h2, ih acc]
    · rw [if_neg h1]
      rw [rowCandidates_cons_short row rest h1, ih acc]

theorem mem_rowCandidates_ne_empty (rows : List (List String)) (x : String)
    (h : x ∈ rowCandidates rows) : x ≠ "" := by
  unfold rowCandidates at h
  rcases List.mem_filterMap.mp h with ⟨row, _, hrow⟩
  by_cases h1 : 1 < row.length
  · rw [if_pos h1] at hrow
    by_cases h2 : pyStrip (secondCol row) ≠ ""
    · rw [if_pos h2] at hrow
      cases hrow
      exact h2
    · rw [if_neg h2] at hrow
      cases hrow
  · rw [if_neg h1] at hrow
    cases hrow

/-
Supporting lemmas about the placeholder substitution scan.
-/

theorem replaceGo_fuel (pat rep : List Char) (hp : pat ≠ []) :
    ∀ (f : Nat) (s : List Char) (f' : Nat), s.length ≤ f → s.length ≤ f' →
    replaceGo pat rep f s = replaceGo pat rep f' s := by
  intro f
  induction f with
  | zero =>
    intro s f' h1 _
    have hs : s = [] := List.eq_nil_of_length_eq_zero (Nat.le_zero.mp h1)
    subst hs
    cases f' with
    | zero => rfl
    | succ f' => rfl
  | succ f ih =>
    intro s f' h1 h2
    cases f' with
    | zero =>
      have hs : s = [] := List.eq_nil_of_length_eq_zero (Nat.le_zero.mp h2)
      subst hs
      rfl
    | succ f' =>
      cases s with
      | nil => rfl
      | cons c rest =>
        have hlp : 0 < pat.length := List.length_pos.mpr hp
        simp only [replaceGo]
        by_cases hpre : pat.isPrefixOf (c :: rest) = true
        · rw [if_pos hpre, if_pos hpre]
          congr 1
          refine ih _ f' ?_ ?_ <;>
            (rw [List.length_drop]; simp only [List.length_cons] at h1 h2 ⊢; omega)
        · rw [if_neg hpre, if_neg hpre]
          congr 1
          refine ih rest f' ?_ ?_ <;>
            (simp only [List.length_cons] at h1 h2; omega)

theorem replaceGo_of_not_substring (pat rep : List Char) :
    ∀ (f : Nat) (s : List Char), isSubstringOf pat s = false →
    replaceGo pat rep f s = s := by
  intro f
  induction f with
  | zero => intro s _; rfl
  | succ f ih =>
    intro s hsub
    cases s with
    | nil => rfl
    | cons c rest =>
      simp only [isSubstringOf, Bool.or_eq_false_iff] at hsub
      simp only [replaceGo]
      rw [if_neg (by rw [hsub.1]; exact Bool.false_ne_true)]
      rw [ih rest hsub.2]

theorem replaceAll_not_substring (pat rep s : List Char)
    (h : isSubstringOf pat s = false) : replaceAll pat rep s = s :=
  replaceGo_of_not_substring pat rep s.length s h

theorem isPrefixOf_append_self (pat b : List Char) : pat.isPrefixOf (pat ++ b) = true := by
  induction pat with
  | nil => simp [List.isPrefixOf]
  | cons c cs ih => simp [List.cons_append, List.isPrefixOf, ih]

theorem replaceAll_token_head (pat rep b : List Char) (hp : pat ≠ []) :
    replaceAll pat rep (pat ++ b) = rep ++ replaceAll pat rep b := by
  unfold replaceAll
  have hlp : 0 < pat.length := List.length_pos.mpr hp
  have hlen : (pat ++ b).length = pat.length + b.length := List.length_append _ _
  obtain ⟨m, hm⟩ : ∃ m, (pat ++ b).length = m + 1 := ⟨(pat ++ b).length - 1, by omega⟩
  rw [hm]
  cases hpat : pat with
  | nil => exact absurd hpat hp
  | cons pc prest =>
    rw [← hpat]
    have hform : pat ++ b = pc :: (prest ++ b) := by rw [hpat]; rfl
    rw [hform]
    simp only [replaceGo]
    rw [if_pos (by
      rw [← hform]
      exact isPrefixOf_append_self pat b)]
    congr 1
    have hdrop : (pc :: (prest ++ b)).drop pat.length = b := by
      rw [← hform]
      exact List.drop_left pat b
    rw [hdrop]
    refine replaceGo_fuel pat rep hp m b b.length ?_ (Nat.le_refl _)
    omega

theorem replaceAll_skip (pat rep : List Char) (c : Char) (s : List Char)
    (h : pat.isPrefixOf (c :: s) = false) :
    replaceAll pat rep (c :: s) = c :: replaceAll pat rep s := by
  unfold replaceAll
  show replaceGo pat rep (s.length + 1) (c :: s) = _
  simp only [replaceGo]
  rw [if_neg (by rw [h]; exact Bool.false_ne_true)]

/-
Supporting lemmas for the validator equivalence.
-/

theorem truthy_str (s : String) : truthy (JVal.str s) = !s.isEmpty := rfl

theorem truthy_num (n : Int) : truthy (JVal.num n) = (n != 0) := rfl

theorem truthy_bool (b : Bool) : truthy (JVal.bool b) = b := rfl

theorem truthy_null : truthy JVal.null = false := rfl

theorem truthy_arr (xs : List JVal) : truthy (JVal.arr xs) = !xs.isEmpty := rfl

theorem truthy_obj (fs : List (String × JVal)) : truthy (JVal.obj fs) = !fs.isEmpty := rfl

theorem checkCard_eq_claim (c : JVal) (h : sentenceIsStr c = true) :
    checkCard c = Except.ok (if claimKeepC2 c = true then some (normalizeCard c) else none) := by
  cases c with
  | str s => rfl
  | num n => rfl
  | bool b => rfl
  | null => rfl
  | arr xs => rfl
  | obj fields =>
    simp only [sentenceIsStr] at h
    cases hs : jget fields "sentence" (JVal.str "") with
    | num n => rw [hs] at h; exact Bool.noConfusion h
    | bool b => rw [hs] at h; exact Bool.noConfusion h
    | null => rw [hs] at h; exact Bool.noConfusion h
    | arr xs => rw [hs] at h; exact Bool.noConfusion h
    | obj f2 => rw [hs] at h; exact Bool.noConfusion h
    | str s =>
      simp only [checkCard, claimKeepC2, normalizeCard, hs, pyContains]
      by_cases h1 : s.isEmpty = true
      · simp [truthy_str, h1]
      · by_cases h2 : truthy (jget fields "hint" (JVal.str "")) = true
        · by_cases h4 : isSubstringOf ['_', '_', '_'] s.data = true
          · cases ha : jget fields "acceptedAnswers" (JVal.arr []) with
            | arr xs =>
              cases xs with
              | nil => simp [truthy_str, truthy_arr, h1, h2, h4]
              | cons q qs => simp [truthy_str, truthy_arr, h1, h2, h4]
            | str t =>
              by_cases hA : t.isEmpty = true
              · simp [truthy_str, h1, h2, h4, hA]
              · simp [truthy_str, h1, h2, h4, hA]
            | num n =>
              by_cases hA : n = 0
              · simp [truthy_str, truthy_num, h1, h2, h4, hA]
              · simp [truthy_str, truthy_num, h1, h2, h4, hA]
            | bool b => cases b <;> simp [truthy_str, truthy_bool, h1, h2, h4]
            | null => simp [truthy_str, truthy_null, h1, h2, h4]
            | obj fs2 =>
              cases fs2 with
              | nil => simp [truthy_str, truthy_obj, h1, h2, h4]
              | cons q qs => simp [truthy_str, truthy_obj, h1, h2, h4]
          · by_cases hA : truthy (jget fields "acceptedAnswers" (JVal.arr [])) = true
            · simp [truthy_str, h1, h2, h4, hA]
            · simp [truthy_str, h1, h2, h4, hA]
        · simp [truthy_str, h1, h2]

theorem validateLoop_eq_claim (cs : List JVal) (h : ∀ c ∈ cs, sentenceIsStr c = true) :
    validateLoop cs = .ok ((cs.filter (fun c => claimKeepC2 c)).map normalizeCard) := by
  induction cs with
  | nil => rfl
  | cons c cs ih =>
    have hc := checkCard_eq_claim c (h c (List.mem_cons_self _ _))
    have hrest := ih (fun c' hc' => h c' (List.mem_cons_of_mem _ hc'))
    by_cases hk : claimKeepC2 c = true
    · simp [validateLoop, hc, hrest, hk, List.filter_cons]
    · simp [validateLoop, hc, hrest, hk, List.filter_cons]

theorem genLoop_transient_calls (lems : List String) (oracle : Nat → AttemptOutcome) :
    ∀ (fuel attempt : Nat),
    (∀ n, attempt ≤ n → n < attempt + fuel → isTransientFailure lems (oracle n) = true) →
    (genLoop lems oracle attempt fuel).calls = fuel := by
  intro fuel
  induction fuel with
  | zero => intro attempt _; rfl
  | succ fuel ih =>
    intro attempt h
    have h0 : isTransientFailure lems (oracle attempt) = true :=
      h attempt (Nat.le_refl _) (by omega)
    rw [genLoop_step_transient lems oracle attempt fuel h0]
    show (genLoop lems oracle (attempt + 1) fuel).calls + 1 = fuel + 1
    rw [ih (attempt + 1) (fun n h1 h2 => h n (by omega) (by omega))]

/-
Claim theorems.
-/

/-- C6 counterexample: the claim says a corrupt store file never aborts
the run, but the except clause catches only json.JSONDecodeError and
IOError; a store whose bytes are not valid UTF-8 raises
UnicodeDecodeError out of json.load, which load_existing does not catch
and which therefore aborts the run instead of yielding the empty dict. -/
theorem c6_corrupt_store_counterexample :
    load_existing (some (Except.error ReadErr.unicodeDecodeError))
      = Except.error ReadErr.unicodeDecodeError ∧
    load_existing (some (Except.error ReadErr.unicodeDecodeError))
      ≠ Except.ok (JVal.obj []) := by
  refine ⟨rfl, ?_⟩
  intro hcontra
  exact Except.noConfusion hcontra

/-- C6 (amended): load_existing returns the parsed mapping when the
file exists and parses as JSON, and returns the empty mapping, without
raising, when the file is missing or json.load raises one of the two
caught errors, malformed JSON or an I/O error; an error outside the
except clause, such as UnicodeDecodeError from a non-UTF-8 store file,
propagates and aborts the run. -/
theorem c6_corrupt_store_recovery :
    load_existing none = Except.ok (JVal.obj []) ∧
    load_existing (some (Except.error ReadErr.jsonDecodeError)) = Except.ok (JVal.obj []) ∧
    load_existing (some (Except.error ReadErr.ioError)) = Except.ok (JVal.obj []) ∧
    (∀ v : JVal, load_existing (some (Except.ok v)) = Except.ok v) ∧
    (∀ e : ReadErr, ∀ v : JVal, load_existing (some (Except.error e)) = Except.ok v →
      (e = ReadErr.jsonDecodeError ∨ e = ReadErr.ioError) ∧ v = JVal.obj []) := by
  refine ⟨rfl, rfl, rfl, fun _ => rfl, ?_⟩
  intro e v h
  cases e with
  | jsonDecodeError =>
    refine ⟨Or.inl rfl, ?_⟩
    injection h with h
    exact h.symm
  | ioError =>
    refine ⟨Or.inr rfl, ?_⟩
    injection h with h
    exact h.symm
  | unicodeDecodeError => exact Except.noConfusion h

/-- C6 witness: the amended statement evaluated at a missing file, a
file parsing to null, and the caught malformed-JSON error. -/
theorem c6_corrupt_store_recovery_witness :
    load_existing none = Except.ok (JVal.obj []) ∧
    load_existing (some (Except.ok JVal.null)) = Except.ok JVal.null ∧
    ((ReadErr.jsonDecodeError = ReadErr.jsonDecodeError ∨
        ReadErr.jsonDecodeError = ReadErr.ioError) ∧
      JVal.obj [] = JVal.obj []) :=
  ⟨c6_corrupt_store_recovery.1,
   c6_corrupt_store_recovery.2.2.2.1 JVal.null,
   c6_corrupt_store_recovery.2.2.2.2 ReadErr.jsonDecodeError (JVal.obj []) rfl⟩

/-- C5 counterexample: with a provider-suggested delay of 1 second at
attempt 1, the code sleeps 30 seconds, not the suggested 1 second; the
wait on a present suggestion is max(suggestion + 5, 30 * attempt), never
the bare suggestion. -/
theorem c5_rate_limit_counterexample :
    rateLimitWait 1 (some 1) = 30 ∧ rateLimitWait 1 (some 1) ≠ 1 :=
  ⟨rfl, by decide⟩

/-- C5 (amended): on a rate-limit error the slept wait is 30 * attempt
when no provider suggestion is present in the error text, and
max(suggestion + 5, 30 * attempt) when one is; the wait is never below
the linear default, and the first sleep of a rate-limited generate_batch
call is exactly this wait. -/
theorem c5_rate_limit_backoff (n s : Nat) (sug : Option Nat) (lems : List String)
    (oracle1 : Nat → AttemptOutcome) (ho : oracle1 1 = .rateLimited sug) :
    rateLimitWait n none = 30 * n ∧
    rateLimitWait n (some s) = Nat.max (s + 5) (30 * n) ∧
    30 * n ≤ rateLimitWait n (some s) ∧
    (generate_batch lems oracle1).sleeps.head? = some (rateLimitWait 1 sug) := by
  refine ⟨rfl, rfl, Nat.le_max_right _ _, ?_⟩
  show (genLoop lems oracle1 1 MAX_RETRIES).sleeps.head? = _
  rw [show MAX_RETRIES = 4 + 1 from rfl]
  rw [genLoop_step_rate lems oracle1 1 4 sug ho]
  rfl

/-- C5 witness: the amended statement evaluated at attempt 2 with
suggestion 40, and a concrete rate-limited batch call. -/
theorem c5_rate_limit_backoff_witness :
    rateLimitWait 2 none = 60 ∧
    rateLimitWait 2 (some 40) = Nat.max 45 60 ∧
    30 * 2 ≤ rateLimitWait 2 (some 40) ∧
    (generate_batch ["chat"] c5DemoOracle).sleeps.head? = some (rateLimitWait 1 (some 40)) :=
  c5_rate_limit_backoff 2 40 (some 40) ["chat"] c5DemoOracle rfl

/-- C4: when every one of the MAX_RETRIES attempts fails to return (the
call raises, the response yields no JSON object, or processing the
parsed value raises), generate_batch returns the empty dict, and the
per-batch step of main then leaves the store unwritten and unchanged and
records every lemma of the batch as failed. -/
theorem c4_retry_exhaustion (lems : List String) (oracle1 : Nat → AttemptOutcome)
    (st : RunState)
    (hfailall : ∀ n, 1 ≤ n → n ≤ MAX_RETRIES → attemptReturns lems (oracle1 n) = false) :
    (generate_batch lems oracle1).result = [] ∧
    (batchStep oracle1 st lems).store = st.store ∧
    (batchStep oracle1 st lems).failed = st.failed ++ lems ∧
    (batchStep oracle1 st lems).saves = st.saves := by
  have hres : (generate_batch lems oracle1).result = [] := by
    apply genLoop_result_nil lems oracle1 MAX_RETRIES 1
    intro n h1 h2
    refine hfailall n h1 ?_
    simp only [MAX_RETRIES] at h2 ⊢
    omega
  refine ⟨hres, ?_, ?_, ?_⟩ <;> (simp only [batchStep, hres]; simp)

/-- C4 witness: a batch of two lemmas whose five attempts all raise a
generic API error. -/
theorem c4_retry_exhaustion_witness :
    (generate_batch ["chat", "chien"] c4DemoOracle).result = [] ∧
    (batchStep c4DemoOracle
      { store := [], genCalls := 0, generated := 0, failed := [], saves := 0 }
      ["chat", "chien"]).store = [] ∧
    (batchStep c4DemoOracle
      { store := [], genCalls := 0, generated := 0, failed := [], saves := 0 }
      ["chat", "chien"]).failed = [] ++ ["chat", "chien"] ∧
    (batchStep c4DemoOracle
      { store := [], genCalls := 0, generated := 0, failed := [], saves := 0 }
      ["chat", "chien"]).saves = 0 :=
  c4_retry_exhaustion ["chat", "chien"] c4DemoOracle
    { store := [], genCalls := 0, generated := 0, failed := [], saves := 0 }
    (fun _ _ _ => rfl)

/-- C8: for a batch whose attempts all fail transiently (non-rate-limit),
the retry sleeps are exactly 2, 4, 8, 16 seconds, that is 2 ** attempt
for attempts 1 to 4 with no sleep after the final attempt; the delays
are non-decreasing in the attempt number, and the number of service
calls equals and never exceeds MAX_RETRIES = 5. -/
theorem c8_transient_backoff (lems : List String) (oracle1 : Nat → AttemptOutcome)
    (htrans : ∀ n, 1 ≤ n → n ≤ MAX_RETRIES → isTransientFailure lems (oracle1 n) = true) :
    (generate_batch lems oracle1).sleeps =
      [transientDelay 1, transientDelay 2, transientDelay 3, transientDelay 4] ∧
    List.Chain' (· ≤ ·) (generate_batch lems oracle1).sleeps ∧
    (∀ a b, a ≤ b → transientDelay a ≤ transientDelay b) ∧
    (generate_batch lems oracle1).calls = MAX_RETRIES ∧
    (∀ oracle2, (generate_batch lems oracle2).calls ≤ MAX_RETRIES) := by
  have harg : ∀ n, 1 ≤ n → n < 1 + MAX_RETRIES → isTransientFailure lems (oracle1 n) = true := by
    intro n h1 h2
    refine htrans n h1 ?_
    simp only [MAX_RETRIES] at h2 ⊢
    omega
  have hsleeps : (generate_batch lems oracle1).sleeps =
      [transientDelay 1, transientDelay 2, transientDelay 3, transientDelay 4] := by
    show (genLoop lems oracle1 1 MAX_RETRIES).sleeps = _
    rw [genLoop_transient_sleeps lems oracle1 MAX_RETRIES 1 harg]
    rfl
  refine ⟨hsleeps, ?_, ?_, ?_, ?_⟩
  · rw [hsleeps]
    simp [transientDelay]
  · intro a b hab
    exact Nat.pow_le_pow_right (by omega) hab
  · show (genLoop lems oracle1 1 MAX_RETRIES).calls = MAX_RETRIES
    exact genLoop_transient_calls lems oracle1 MAX_RETRIES 1 harg
  · intro oracle2
    exact genLoop_calls_le lems oracle2 MAX_RETRIES 1

/-- C8 witness: a batch whose five attempts all yield unparsable JSON. -/
theorem c8_transient_backoff_witness :
    (generate_batch ["chat"] c8DemoOracle).sleeps =
      [transientDelay 1, transientDelay 2, transientDelay 3, transientDelay 4] ∧
    List.Chain' (· ≤ ·) (generate_batch ["chat"] c8DemoOracle).sleeps ∧
    (∀ a b, a ≤ b → transientDelay a ≤ transientDelay b) ∧
    (generate_batch ["chat"] c8DemoOracle).calls = MAX_RETRIES ∧
    (∀ oracle2, (generate_batch ["chat"] oracle2).calls ≤ MAX_RETRIES) :=
  c8_transient_backoff ["chat"] c8DemoOracle (fun _ _ _ => rfl)

/-- C9: build_prompt replaces each occurrence of the exact placeholder
token with the lemmas joined by comma-and-space, characterised by the
scan equations: a template starting with the token continues with the
joined lemmas in place of the token, a template whose head does not
start the token keeps that character, and a template not containing the
token at all is returned unchanged, without failing. -/
theorem c9_template_substitution (template b s : List Char) (c : Char)
    (lemmas : List String) :
    (isSubstringOf LEMMA_LIST_TOKEN template = false →
      build_prompt template lemmas = template) ∧
    build_prompt (LEMMA_LIST_TOKEN ++ b) lemmas =
      joinLemmas lemmas ++ build_prompt b lemmas ∧
    (LEMMA_LIST_TOKEN.isPrefixOf (c :: s) = false →
      build_prompt (c :: s) lemmas = c :: build_prompt s lemmas) := by
  have htok : LEMMA_LIST_TOKEN ≠ [] := by decide
  refine ⟨?_, ?_, ?_⟩
  · intro h
    exact replaceAll_not_substring _ _ _ h
  · exact replaceAll_token_head _ _ _ htok
  · intro h
    exact replaceAll_skip _ _ _ _ h

/-- C9 witness: a token-free template is returned unchanged, a template
starting with the token substitutes the joined lemmas, and a
non-token head character is kept. -/
theorem c9_template_substitution_witness :
    build_prompt "Bonjour".toList ["le", "la"] = "Bonjour".toList ∧
    build_prompt (LEMMA_LIST_TOKEN ++ "!".toList) ["le", "la"] =
      joinLemmas ["le", "la"] ++ build_prompt "!".toList ["le", "la"] ∧
    build_prompt ('A' :: "b".toList) ["le", "la"] = 'A' :: build_prompt "b".toList ["le", "la"] :=
  ⟨(c9_template_substitution "Bonjour".toList "!".toList "b".toList 'A' ["le", "la"]).1
      (by decide),
   (c9_template_substitution "Bonjour".toList "!".toList "b".toList 'A' ["le", "la"]).2.1,
   (c9_template_substitution "Bonjour".toList "!".toList "b".toList 'A' ["le", "la"]).2.2
      (by decide)⟩

/-- C2 counterexample: a candidate whose sentence is the truthy number 1
is not a mapping with a non-empty sentence string, so per the claim it
should be dropped individually, yielding the empty validated list; the
code instead raises TypeError on the membership test, aborting the whole
validate_card call (and with it the attempt). -/
theorem c2_validation_counterexample :
    validate_card "chat"
      (JVal.arr [JVal.obj [("sentence", JVal.num 1), ("hint", JVal.str "h"),
                           ("acceptedAnswers", JVal.arr [JVal.str "x"])]])
      = Except.error () ∧
    claimKeepC2 (JVal.obj [("sentence", JVal.num 1), ("hint", JVal.str "h"),
                           ("acceptedAnswers", JVal.arr [JVal.str "x"])]) = false ∧
    (Except.error () : Except Unit (List JVal)) ≠
      Except.ok (List.map normalizeCard (List.filter (fun c => claimKeepC2 c)
        [JVal.obj [("sentence", JVal.num 1), ("hint", JVal.str "h"),
                   ("acceptedAnswers", JVal.arr [JVal.str "x"])]])) := by
  refine ⟨rfl, rfl, ?_⟩
  intro hcontra
  exact Except.noConfusion hcontra

/-- C2 (amended): provided every candidate whose fields are consulted
carries a string sentence value (the only case in which the membership
test is the substring test and cannot raise), validate_card keeps
exactly the candidates that are mappings with a non-empty sentence
containing the blank marker, a non-empty (truthy) hint and a non-empty
list acceptedAnswers, each rebuilt with exactly those three fields;
candidates are dropped individually, and a lemma appears in a batch
result only with a non-empty validated list. -/
theorem c2_validation_amended (lem : String) (cards : List JVal)
    (data : List (String × JVal)) (lems : List String) (r : Store)
    (l : String) (vs : List JVal)
    (hstr : ∀ c ∈ cards, sentenceIsStr c = true)
    (hbr : buildResult data lems [] = Except.ok r)
    (hmem : (l, vs) ∈ r) :
    validate_card lem (JVal.arr cards) =
      Except.ok ((cards.filter (fun c => claimKeepC2 c)).map normalizeCard) ∧
    vs ≠ [] := by
  constructor
  · show validateLoop cards = _
    exact validateLoop_eq_claim cards hstr
  · exact buildResult_values_nonempty data lems [] r hbr
      (by intro q hq; cases hq) (l, vs) hmem

/-- C2 witness: the specification's own example, one card with the blank
marker and one without; exactly the first survives, and the
batch-result entry for the lemma is non-empty. -/
theorem c2_validation_amended_witness :
    validate_card "aimer"
      (JVal.arr [JVal.obj [("sentence", JVal.str "Nous allons ___ cela."),
                           ("hint", JVal.str "h"),
                           ("acceptedAnswers", JVal.arr [JVal.str "aimer"])],
                 JVal.obj [("sentence", JVal.str "no blank"),
                           ("hint", JVal.str "h"),
                           ("acceptedAnswers", JVal.arr [JVal.str "x"])]]) =
      Except.ok [JVal.obj [("sentence", JVal.str "Nous allons ___ cela."),
                           ("hint", JVal.str "h"),
                           ("acceptedAnswers", JVal.arr [JVal.str "aimer"])]] ∧
    ([JVal.obj [("sentence", JVal.str "Nous allons ___ cela."),
                ("hint", JVal.str "h"),
                ("acceptedAnswers", JVal.arr [JVal.str "aimer"])]] : List JVal) ≠ [] :=
  c2_validation_amended "aimer"
    [JVal.obj [("sentence", JVal.str "Nous allons ___ cela."),
               ("hint", JVal.str "h"),
               ("acceptedAnswers", JVal.arr [JVal.str "aimer"])],
     JVal.obj [("sentence", JVal.str "no blank"),
               ("hint", JVal.str "h"),
               ("acceptedAnswers", JVal.arr [JVal.str "x"])]]
    [("aimer", JVal.arr [JVal.obj [("sentence", JVal.str "Nous allons ___ cela."),
                                   ("hint", JVal.str "h"),
                                   ("acceptedAnswers", JVal.arr [JVal.str "aimer"])]])]
    ["aimer"]
    [("aimer", [JVal.obj [("sentence", JVal.str "Nous allons ___ cela."),
                          ("hint", JVal.str "h"),
                          ("acceptedAnswers", JVal.arr [JVal.str "aimer"])]])]
    "aimer"
    [JVal.obj [("sentence", JVal.str "Nous allons ___ cela."),
               ("hint", JVal.str "h"),
               ("acceptedAnswers", JVal.arr [JVal.str "aimer"])]]
    (by intro c hc; fin_cases hc <;> rfl)
    rfl
    (List.mem_singleton.mpr rfl)

/-- C3: on a vocabulary file with its two header rows, extract_lemmas
returns exactly the first-occurrence deduplication of the stripped
second columns of the data rows that have more than one column and a
non-empty stripped value; the result has no duplicates, contains no
empty string, and preserves first-occurrence order; short rows are
skipped without error. -/
theorem c3_lemma_extraction (rows : List (List String)) (out : List String)
    (h : GenCards.extract_lemmas rows = Except.ok out) :
    out = dedupFirst (rowCandidates (rows.drop 2)) ∧
    out.Nodup ∧
    "" ∉ out := by
  have hout : out = dedupFirst (rowCandidates (rows.drop 2)) := by
    cases rows with
    | nil => exact absurd h (by simp [GenCards.extract_lemmas])
    | cons r1 rows1 =>
      cases rows1 with
      | nil => exact absurd h (by simp [GenCards.extract_lemmas])
      | cons r2 rest =>
        simp only [GenCards.extract_lemmas, Except.ok.injEq] at h
        rw [← h, extractGo_eq_dedup rest []]
        simp [dedupFirst]
  refine ⟨hout, ?_, ?_⟩
  · rw [hout]
    exact nodup_dedupAgainst _ []
  · rw [hout]
    intro hc
    exact mem_rowCandidates_ne_empty _ "" (mem_dedupAgainst_mem _ [] "" hc) rfl

/-- C3 witness: a file with two header rows, a repeated lemma, a short
row and a whitespace-only second column yields the deduplicated ordered
list. -/
theorem c3_lemma_extraction_witness :
    (["le", "la"] : List String) =
      dedupFirst (rowCandidates
        (([["desc"], ["freq", "lemme"], ["1", " le "], ["2", "la"], ["3", "le"],
           ["4"], ["5", "  "]] : List (List String)).drop 2)) ∧
    (["le", "la"] : List String).Nodup ∧
    "" ∉ (["le", "la"] : List String) :=
  c3_lemma_extraction
    [["desc"], ["freq", "lemme"], ["1", " le "], ["2", "la"], ["3", "le"],
     ["4"], ["5", "  "]]
    ["le", "la"] rfl

theorem extractGo_eq (rows : List (List String)) :
    ∀ acc, ProcessWords.extractGo rows acc = GenCards.extractGo rows acc := by
  induction rows with
  | nil => intro acc; rfl
  | cons row rest ih =>
    intro acc
    simp only [ProcessWords.extractGo, GenCards.extractGo]
    by_cases h1 : 1 < row.length
    · rw [if_pos h1, if_pos h1]
      by_cases h2 : pyStrip (secondCol row) ≠ "" ∧ pyStrip (secondCol row) ∉ acc
      · rw [if_pos h2, if_pos h2, ih]
      · rw [if_neg h2, if_neg h2, ih]
    · rw [if_neg h1, if_neg h1, ih]

/-- C10: the two independently written extraction functions,
extract_lemmas in process_words.py and extract_lemmas in
generate-cards.py, compute the same function on every parsed vocabulary
file, including agreement on rejecting files with fewer than two rows. -/
theorem c10_extract_equiv (rows : List (List String)) :
    ProcessWords.extract_lemmas rows = GenCards.extract_lemmas rows := by
  cases rows with
  | nil => rfl
  | cons r1 rows1 =>
    cases rows1 with
    | nil => rfl
    | cons r2 rest =>
      simp only [ProcessWords.extract_lemmas, GenCards.extract_lemmas]
      rw [extractGo_eq rest []]

theorem runPipeline_empty_remaining (target : List String) (store0 : Store)
    (bsize : Nat) (oracle : Nat → Nat → AttemptOutcome)
    (h : (remainingOf target store0).isEmpty = true) :
    runPipeline target store0 bsize oracle =
      { store := store0, genCalls := 0, generated := 0, failed := [], saves := 0 } := by
  simp only [runPipeline]
  rw [if_pos h]

theorem runPipeline_covers_target (target : List String) (store0 : Store) (bsize : Nat)
    (oracle : Nat → Nat → AttemptOutcome) (hbs : bsize ≠ 0)
    (hfail : (runPipeline target store0 bsize oracle).failed = []) :
    ∀ l ∈ target, hasKey (runPipeline target store0 bsize oracle).store l = true := by
  intro l hl
  by_cases hre : (remainingOf target store0).isEmpty = true
  · have hrp : runPipeline target store0 bsize oracle =
        { store := store0, genCalls := 0, generated := 0, failed := [], saves := 0 } := by
      simp only [runPipeline]
      rw [if_pos hre]
    rw [hrp]
    have hnil : remainingOf target store0 = [] := by
      cases hxx : remainingOf target store0 with
      | nil => rfl
      | cons a as => rw [hxx] at hre; exact absurd hre (by simp)
    have h2 := List.filter_eq_nil_iff.mp hnil l hl
    show hasKey store0 l = true
    simpa using h2
  · have hrp : runPipeline target store0 bsize oracle =
        runBatches oracle 0
          { store := store0, genCalls := 0, generated := 0, failed := [], saves := 0 }
          (chunksOf bsize (remainingOf target store0)) := by
      simp only [runPipeline]
      rw [if_neg hre]
    by_cases hk0 : hasKey store0 l = true
    · rw [hrp]
      exact runBatches_store_hasKey oracle _ 0 _ l hk0
    · have hmem : l ∈ remainingOf target store0 := by
        rw [remainingOf, List.mem_filter]
        refine ⟨hl, ?_⟩
        rw [Bool.not_eq_true] at hk0
        simp [hk0]
      rcases exists_chunk_of_mem bsize _ l hbs hmem with ⟨b, hb, hlb⟩
      have hfail' : (runBatches oracle 0
          { store := store0, genCalls := 0, generated := 0, failed := [], saves := 0 }
          (chunksOf bsize (remainingOf target store0))).failed = [] := by
        rw [← hrp]
        exact hfail
      rw [hrp]
      exact runBatches_failed_nil_covers oracle _ 0 _ hfail' b hb l hlb

/-- C1: after a run in which no lemma failed, every target lemma is a
key of the resulting store, so the remaining-lemmas list of a second run
on identical inputs is empty and the second run returns before building
any batch: it performs zero generation calls, writes nothing, and leaves
the store identical, whatever the service would have answered. -/
theorem c1_resume_idempotence (target : List String) (store0 : Store) (bsize : Nat)
    (oracle oracle2 : Nat → Nat → AttemptOutcome) (hbs : bsize ≠ 0)
    (hfail : (runPipeline target store0 bsize oracle).failed = []) :
    remainingOf target (runPipeline target store0 bsize oracle).store = [] ∧
    runPipeline target (runPipeline target store0 bsize oracle).store bsize oracle2 =
      { store := (runPipeline target store0 bsize oracle).store
        genCalls := 0, generated := 0, failed := [], saves := 0 } := by
  have hkey := runPipeline_covers_target target store0 bsize oracle hbs hfail
  have hrem : remainingOf target (runPipeline target store0 bsize oracle).store = [] := by
    rw [remainingOf]
    apply List.filter_eq_nil_iff.mpr
    intro l hl
    simp [hkey l hl]
  refine ⟨hrem, ?_⟩
  have hre2 : (remainingOf target (runPipeline target store0 bsize oracle).store).isEmpty
      = true := by
    rw [hrem]
    rfl
  exact runPipeline_empty_remaining target _ bsize oracle2 hre2

/-- C1 witness: a two-lemma vocabulary generated successfully in one
batch; re-running with the produced store is a no-op with zero calls. -/
theorem c1_resume_idempotence_witness :
    remainingOf ["chat", "chien"] (runPipeline ["chat", "chien"] [] 20 c1DemoOracle).store
      = [] ∧
    runPipeline ["chat", "chien"] (runPipeline ["chat", "chien"] [] 20 c1DemoOracle).store
        20 c1DemoOracle =
      { store := (runPipeline ["chat", "chien"] [] 20 c1DemoOracle).store
        genCalls := 0, generated := 0, failed := [], saves := 0 } :=
  c1_resume_idempotence ["chat", "chien"] [] 20 c1DemoOracle c1DemoOracle
    (by decide) rfl

/-- C7: a batch result only ever contains requested lemmas (response
keys that were not requested are ignored); across a run the store never
loses a key, any key present at the start keeps its exact card list, and
every key of the final store is either an initial key or a target
lemma. -/
theorem c7_store_monotonicity (target : List String) (store0 : Store) (bsize : Nat)
    (oracle : Nat → Nat → AttemptOutcome) (k k2 k' : String)
    (lems : List String) (o1 : Nat → AttemptOutcome)
    (hbs : bsize ≠ 0)
    (hk : hasKey store0 k = true)
    (hsc : hasKey (runPipeline target store0 bsize oracle).store k2 = true)
    (hgb : hasKey (generate_batch lems o1).result k' = true) :
    k' ∈ lems ∧
    hasKey (runPipeline target store0 bsize oracle).store k = true ∧
    dictGet (runPipeline target store0 bsize oracle).store k = dictGet store0 k ∧
    (hasKey store0 k2 = true ∨ k2 ∈ target) := by
  have hscope : ∀ b ∈ chunksOf bsize (remainingOf target store0), ∀ x, x ∈ b →
      x ∈ remainingOf target store0 := by
    intro b hb x hx
    exact mem_of_mem_chunksOf bsize _ b x hbs hb hx
  by_cases hre : (remainingOf target store0).isEmpty = true
  · have hrp := runPipeline_empty_remaining target store0 bsize oracle hre
    refine ⟨genLoop_result_keys lems o1 MAX_RETRIES 1 k' hgb, ?_, ?_, ?_⟩
    · rw [hrp]
      exact hk
    · rw [hrp]
    · rw [hrp] at hsc
      exact Or.inl hsc
  · have hrp : runPipeline target store0 bsize oracle =
        runBatches oracle 0
          { store := store0, genCalls := 0, generated := 0, failed := [], saves := 0 }
          (chunksOf bsize (remainingOf target store0)) := by
      simp only [runPipeline]
      rw [if_neg hre]
    refine ⟨genLoop_result_keys lems o1 MAX_RETRIES 1 k' hgb, ?_, ?_, ?_⟩
    · rw [hrp]
      exact runBatches_store_hasKey oracle _ 0 _ k hk
    · rw [hrp]
      apply runBatches_store_preserve oracle _ 0 _ k
      intro b hb hkb
      have hkrem : k ∈ remainingOf target store0 := hscope b hb k hkb
      rw [remainingOf, List.mem_filter] at hkrem
      rw [hk] at hkrem
      exact absurd hkrem.2 (by simp)
    · rw [hrp] at hsc
      rcases runBatches_store_scope oracle _ 0 _ k2 hsc with h1 | h1
      · exact Or.inl h1
      · rcases h1 with ⟨b, hb, hk2b⟩
        have hmem : k2 ∈ remainingOf target store0 := hscope b hb k2 hk2b
        rw [remainingOf, List.mem_filter] at hmem
        exact Or.inr hmem.1

/-- C7 witness: a store already holding the lemma le, a target adding
chat; the run adds chat, keeps le untouched, and the batch result's only
key is the requested lemma. -/
theorem c7_store_monotonicity_witness :
    ("chat" : String) ∈ (["chat"] : List String) ∧
    hasKey (runPipeline ["le", "chat"] [("le", [JVal.null])] 20 c7DemoOracle).store "le"
      = true ∧
    dictGet (runPipeline ["le", "chat"] [("le", [JVal.null])] 20 c7DemoOracle).store "le"
      = dictGet [("le", [JVal.null])] "le" ∧
    (hasKey [("le", [JVal.null])] "chat" = true ∨ ("chat" : String) ∈ ["le", "chat"]) :=
  c7_store_monotonicity ["le", "chat"] [("le", [JVal.null])] 20 c7DemoOracle
    "le" "chat" "chat" ["chat"] (c7DemoOracle 0)
    (by decide) rfl rfl rfl
